import Mathlib

/-!
Shallow embedding of the quick-permission evaluation engine (the four-state
outcome model): JS-like values, schemas, rules, the rule combinators
(merge / and / or), hierarchy flattening with cycle detection, path
resolution (satisfiedBy), default-state synthesis, and the validator.
Each definition is a direct translation of the corresponding TypeScript
function; JS exceptions are modelled with Except, JS objects with
association lists, and the traversal loops with explicit fuel mirroring
the maxDepth counter of the source.
-/

namespace QP

/-- The four validation outcomes (VALIDATION_RESULT in types/common.ts). -/
inductive VR where
  | neutral
  | granted
  | rejected
  | blocked
deriving DecidableEq, Repr

/-- Values a rule check can return: legacy booleans, undefined, or one of the
four outcome constants (normalized later inside allow). -/
inductive RuleRet where
  | rbool (b : Bool)
  | rundef
  | rres (v : VR)
deriving DecidableEq, Repr

/-- JS-like runtime values for states and requests. -/
inductive JVal where
  | vNull
  | vBool (b : Bool)
  | vStr (s : String)
  | vArr (elems : List JVal)
  | vObj (fields : List (String × JVal))

/-- A JS object: insertion-ordered fields. -/
abbrev Obj := List (String × JVal)

/-- First-match association-list lookup (JS object property read). -/
def lookupAssoc {α : Type} (l : List (String × α)) (k : String) : Option α :=
  match l with
  | [] => none
  | (k2, v) :: rest => if k2 = k then some v else lookupAssoc rest k

/-- Set a field, replacing an existing one in place (JS property assignment). -/
def objSet (o : Obj) (k : String) (v : JVal) : Obj :=
  match o with
  | [] => [(k, v)]
  | (k2, v2) :: rest => if k2 = k then (k2, v) :: rest else (k2, v2) :: objSet rest k v

/-- JS object spread merge: fields of b override fields of a key by key. -/
def mergeObj (a b : Obj) : Obj :=
  b.foldl (fun acc kv => objSet acc kv.1 kv.2) a

/-- Property read on an arbitrary value: only plain objects carry fields. -/
def getProp (v : JVal) (k : String) : Option JVal :=
  match v with
  | .vObj fields => lookupAssoc fields k
  | _ => none

/-- JS strict equality for the values compared by the embedded rules:
undefined === undefined is true, primitives compare structurally, and
arrays/objects use reference identity which never holds between the
distinct literals appearing in this development. -/
def jsStrictEq (a b : Option JVal) : Bool :=
  match a, b with
  | none, none => true
  | some (.vStr s1), some (.vStr s2) => s1 == s2
  | some (.vBool b1), some (.vBool b2) => b1 == b2
  | some .vNull, some .vNull => true
  | _, _ => false

/-- A schema (named structural validator): optional state/request checks that
may throw, plus an optional default-state factory (pure in the source). -/
structure Schema where
  name : String
  state : Option (JVal → Except String Bool)
  request : Option (JVal → Except String Bool)
  defaultState : Option Obj

/-- A rule: a name, its schemas, and a check that may throw. -/
structure Rule where
  name : String
  schemas : List Schema
  check : JVal → JVal → Except String RuleRet

/-- A validation error entry (ValidationError): here only the fields the
four-state validator writes (type, name, message, stateIndex). -/
structure VErr where
  type : String
  name : String
  message : String
  stateIndex : Option Nat
deriving DecidableEq, Repr

/-- The result record of the validator. -/
structure ValidationResult where
  valid : Bool
  reasons : List VErr
  resultType : Option VR
deriving DecidableEq, Repr

/-- A flat-hierarchy entry: {schemas, rules, defaultState}. -/
structure FlatEntry where
  schemas : List Schema
  rules : List Rule
  defaultState : Option Obj

/-- The flattened hierarchy: dot-path keyed insertion-ordered map. -/
abbrev Flat := List (String × FlatEntry)

/-- The PermissionHierarchy object; keys is Object.keys(flat) in the source
constructor, so it is derived from flat here. -/
structure PermHierarchy where
  flat : Flat

def PermHierarchy.keys (h : PermHierarchy) : List String := h.flat.map (·.1)

/-- `schema.name || "unnamed"`. -/
def jsNameOr (n : String) : String := if n = "" then "unnamed" else n

/-- The contribution of one schema inside the try/catch of allow: state check first
(a thrown error skips the request check), then the request check. -/
def schemaCheckOne (s : Schema) (st rq : JVal) : List VErr :=
  let snm0 := s.name
  let nm := jsNameOr s.name
  let requestPart : List VErr :=
    match s.request with
    | some g =>
      match g rq with
      | .error e => [⟨"schema", nm, e, none⟩]
      | .ok b => if b then [] else [⟨"schema", nm, s!"Invalid request for schema {snm0}", none⟩]
    | none => []
  match s.state with
  | some f =>
    match f st with
    | .error e => [⟨"schema", nm, e, none⟩]
    | .ok b =>
      (if b then [] else [⟨"schema", nm, s!"Invalid state for schema {snm0}", none⟩])
        ++ requestPart
  | none => requestPart

/-- Normalization of legacy rule returns inside allow:
false → REJECTED, true → GRANTED, undefined → NEUTRAL. -/
def normalizeRuleRet : RuleRet → VR
  | .rbool false => .rejected
  | .rbool true => .granted
  | .rundef => .neutral
  | .rres v => v

/-- The rule loop of allow: BLOCKED and REJECTED short-circuit with a synthesized
error, a thrown check is caught and yields REJECTED, GRANTED is recorded
only while the running result is still NEUTRAL. -/
def rulesLoop (st rq : JVal) : List Rule → VR → List VErr → VR × List VErr
  | [], acc, errs => (acc, errs)
  | r :: rest, acc, errs =>
    let nm := jsNameOr r.name
    match r.check st rq with
    | .error e => (.rejected, errs ++ [⟨"rule", nm, e, none⟩])
    | .ok ret =>
      match normalizeRuleRet ret with
      | .blocked => (.blocked, errs ++ [⟨"rule", nm, s!"Access blocked: {nm}", none⟩])
      | .rejected => (.rejected, errs ++ [⟨"rule", nm, s!"Rule not satisfied: {nm}", none⟩])
      | .granted => rulesLoop st rq rest (if acc = .neutral then .granted else acc) errs
      | .neutral => rulesLoop st rq rest acc errs

/-- allow (validation.ts): run every schema check; any schema error yields
REJECTED without running rules; otherwise fold the rules. -/
def allow (schemas : List Schema) (rules : List Rule) (st rq : JVal) : VR × List VErr :=
  let errs := schemas.foldl (fun acc s => acc ++ schemaCheckOne s st rq) []
  if errs = [] then rulesLoop st rq rules .neutral []
  else (.rejected, errs)

/-- The merge mode argument of mergeValidationResults. -/
inductive MergeMode where
  | mAnd
  | mOr

/-- A partial validation result {valid?: ValidationResultType, errors}. -/
structure MergeRes where
  valid : Option VR
  errors : List VErr

/-- Error collection of mergeValidationResults: append an error only when no
collected error already has the same (type, name). -/
def addErrors (acc news : List VErr) : List VErr :=
  news.foldl
    (fun a e => if a.any (fun x => x.type == e.type && x.name == e.name) then a else a ++ [e])
    acc

/-- One step of the valid-flag fold of mergeValidationResults. -/
def mergeStep (mode : MergeMode) (merged : Option VR) (v : Option VR) : Option VR :=
  match v with
  | none => merged
  | some rv =>
    match merged with
    | none => some rv
    | some m =>
      if rv = .blocked ∨ m = .blocked then some .blocked
      else
        match mode with
        | .mOr =>
          if m = .granted ∨ rv = .granted then some .granted
          else if m = .rejected ∧ rv = .rejected then some .rejected
          else some rv
        | .mAnd =>
          if m = .neutral ∨ rv = .neutral then some .neutral
          else if m = .rejected ∨ rv = .rejected then some .rejected
          else some .granted

/-- mergeValidationResults (validation.ts): deduplicated error collection plus
the mode-dependent fold of the optional valid flags. -/
def mergeValidationResults (results : List MergeRes) (mode : MergeMode) : MergeRes :=
  results.foldl
    (fun acc r => ⟨mergeStep mode acc.valid r.valid, addErrors acc.errors r.errors⟩)
    ⟨none, []⟩

/-- Index (in UTF-16-free ASCII keys: positions coincide) of the last dot. -/
def lastDotAux : List Char → Nat → Option Nat → Option Nat
  | [], _, best => best
  | c :: rest, i, best => lastDotAux rest (i + 1) (if c = '.' then some i else best)

/-- JS key.lastIndexOf with -1 for absence. -/
def jsLastIndexOfDot (s : String) : Int :=
  match lastDotAux s.data 0 none with
  | some i => (i : Int)
  | none => -1

/-- JS key.substring(0, end) with a negative end clamped to 0. -/
def jsSubstringTo (s : String) (e : Int) : String := ⟨s.data.take e.toNat⟩

/-- `traverseKey in hierarchy.flat`. -/
def flatHasKey (flat : Flat) (k : String) : Bool := flat.any (fun kv => kv.1 == k)

/-- The while loop of satisfiedBy; fuel bounds the strictly shrinking key. -/
def satLoop (flat : Flat) : Nat → String → Int → List String → List String
  | 0, _, _, matching => matching
  | fuel + 1, tk, sepIdx, matching =>
    if sepIdx ≥ 0 then
      if flatHasKey flat tk then
        let sep := jsLastIndexOfDot tk
        satLoop flat fuel (jsSubstringTo tk sep) sep (tk :: matching)
      else matching
    else matching

/-- satisfiedBy (hierarchy.ts): walk from the key towards the root, keeping
each path found in the flat map, stopping at the first missing one. -/
def satisfiedBy (flat : Flat) (key : String) : List String :=
  let sep := jsLastIndexOfDot key
  if sep < 0 then (if flatHasKey flat key then [key] else [])
  else satLoop flat (key.data.length + 1) key sep []

/-- The per-key body of createDefaultStateSet: fold the schema defaultState
objects in order (the schemas-nonempty guard in the source is redundant with
the loop), then override with the node-level defaultState when present. -/
def synthDefault (e : FlatEntry) : Obj :=
  let d := e.schemas.foldl
    (fun acc s => match s.defaultState with
      | some ds => mergeObj acc ds
      | none => acc) []
  match e.defaultState with
  | some nd => mergeObj d nd
  | none => d

/-- createDefaultStateSet (hierarchy.ts): one synthesized default per key of
the flat map, iterated in key order (hierarchy.keys = Object.keys(flat)). -/
def createDefaultStateSet (flat : Flat) : List (String × Obj) :=
  flat.map (fun kv =>
    (kv.1,
      match lookupAssoc flat kv.1 with
      | some e => synthDefault e
      | none => []))

/-- A state-set value for one key: a single state object or an array. -/
inductive StateVal where
  | single (v : JVal)
  | multi (vs : List JVal)

/-- A caller-supplied PermissionStateSet. -/
abbrev StateSet := List (String × StateVal)

/-- The effective state entries validate evaluates at chain path pk: the
recorded value (wrapped in an array when single), or, when absent, the single
object {...defaultStates[key], ...defaultStates[pk]} (the ternary of the source
guard on this object being undefined can never fire, an object is never
undefined). -/
def stateEntriesFor (defaults : List (String × Obj)) (st : StateSet) (key pk : String) :
    List JVal :=
  match lookupAssoc st pk with
  | none =>
    [JVal.vObj (mergeObj ((lookupAssoc defaults key).getD []) ((lookupAssoc defaults pk).getD []))]
  | some (.single v) => [v]
  | some (.multi vs) => vs

/-- validate (validation.ts, four-state version): throws only for an unknown
key; evaluates the entry of the requested key (permission := hierarchy.flat[key])
at every chain path against the state entries of that path, merges entries,
chain paths and state sources each with the default "or" mode, and converts
the folded outcome into {valid, reasons, resultType}. -/
def validate (h : PermHierarchy) (states : List StateSet) (key : String) (request : JVal) :
    Except String ValidationResult :=
  match lookupAssoc h.flat key with
  | none => .error s!"Permission \x22{key}\x22 not found in hierarchy"
  | some permission =>
    let satisfier := satisfiedBy h.flat key
    let defaults := createDefaultStateSet h.flat
    let stateResults := states.enum.map (fun si =>
      let stateIndex := si.1
      let originalState := si.2
      let chainResults := satisfier.map (fun pk =>
        let entries := stateEntriesFor defaults originalState key pk
        let permStateResults := entries.map (fun pst =>
          let r := allow permission.schemas permission.rules pst request
          MergeRes.mk (some r.1) (r.2.map (fun e => { e with stateIndex := some stateIndex })))
        mergeValidationResults permStateResults .mOr)
      mergeValidationResults chainResults .mOr)
    let finalResult := mergeValidationResults stateResults .mOr
    let isValid := finalResult.valid = some VR.granted
    let isExplicitlyRejected :=
      finalResult.valid = some VR.rejected ∨ finalResult.valid = some VR.blocked
    .ok
      { valid := decide isValid,
        reasons := if isExplicitlyRejected then finalResult.errors else [],
        resultType := finalResult.valid }

/-- mergeSchemas (operators/operations.ts): deduplicated union of the rule
schemas by name, preserving first-seen order. -/
def mergeSchemas (rules : List Rule) : List Schema :=
  rules.foldl
    (fun acc r =>
      r.schemas.foldl
        (fun a s => if a.any (fun x => x.name == s.name) then a else a ++ [s]) acc)
    []

/-- The loop of the combined check of merge: the source compares the raw return
value against the outcome constants (REJECTED first, then BLOCKED, then
GRANTED); an uncaught throw propagates out of the combined check. -/
def mergeCheckLoop (st rq : JVal) : List Rule → VR → Except String RuleRet
  | [], valid => .ok (.rres valid)
  | r :: rest, valid =>
    match r.check st rq with
    | .error e => .error e
    | .ok res =>
      if res = .rres .rejected then .ok (.rres .rejected)
      else if res = .rres .blocked then .ok (.rres .blocked)
      else mergeCheckLoop st rq rest (if res = .rres .granted then .granted else valid)

/-- merge (operators/operations.ts, four-state version). -/
def mergeRules (rules : List Rule) : Rule :=
  { name := "merge",
    schemas := mergeSchemas rules,
    check := fun st rq => mergeCheckLoop st rq rules .neutral }

/-- The loop of the combined check of and. -/
def andCheckLoop (st rq : JVal) : List Rule → Bool → Except String RuleRet
  | [], allGranted => .ok (.rres (if allGranted then .granted else .neutral))
  | r :: rest, allGranted =>
    match r.check st rq with
    | .error e => .error e
    | .ok res =>
      if res = .rres .rejected then .ok (.rres .rejected)
      else if res = .rres .blocked then .ok (.rres .blocked)
      else andCheckLoop st rq rest (if res = .rres .neutral then false else allGranted)

/-- and (operators/operations.ts, four-state version). -/
def andRules (rules : List Rule) : Rule :=
  { name := "and",
    schemas := mergeSchemas rules,
    check := fun st rq => andCheckLoop st rq rules true }

/-- The loop of the combined check of or: GRANTED short-circuits, anything else is
ignored, and the fallthrough result is NEUTRAL. -/
def orCheckLoop (st rq : JVal) : List Rule → Except String RuleRet
  | [] => .ok (.rres .neutral)
  | r :: rest =>
    match r.check st rq with
    | .error e => .error e
    | .ok res =>
      if res = .rres .granted then .ok (.rres .granted) else orCheckLoop st rq rest

/-- or (operators/operations.ts, four-state version). -/
def orRules (rules : List Rule) : Rule :=
  { name := "or",
    schemas := mergeSchemas rules,
    check := fun st rq => orCheckLoop st rq rules }

/-- A node of the caller-built object graph. The graph is a store indexed by
node identity (the WeakSet in flatHierarchy tracks object identity, modelled
here as the store index), so cyclic and shared references are expressible. -/
inductive StoreNode where
  | perm (schemas : List Schema) (rules : List Rule)
      (children : Option (List (String × Nat))) (defaultState : Option Obj)
  | group (entries : List (String × Nat))

/-- permission (core/permission.ts): extract the rule schemas, merge them
behind the explicit schemas deduplicating by name, synthesize the node
defaultState from the schema defaults ({} when schemas exist but none
contributes, undefined when there is no schema at all), and override it
with the user-provided defaultState last. -/
def permissionCtor (schemas : List Schema) (rules : List Rule)
    (children : Option (List (String × Nat))) (defaultState : Option Obj) : StoreNode :=
  let ruleSchemas := rules.foldl (fun acc r => acc ++ r.schemas) []
  let allSchemas := ruleSchemas.foldl
    (fun acc s => if acc.any (fun x => x.name == s.name) then acc else acc ++ [s]) schemas
  let ds0 : Option Obj :=
    if allSchemas.length > 0 then
      some (allSchemas.foldl
        (fun acc s => match s.defaultState with
          | some d => mergeObj acc d
          | none => acc) [])
    else none
  let ds : Option Obj :=
    match defaultState with
    | some userDs => some (mergeObj (ds0.getD []) userDs)
    | none => ds0
  .perm allSchemas rules children ds

/-- Path concatenation of the flattening: currentPath + "." + childKey, or
just childKey at the root. -/
def childPath (cur k : String) : String := if cur = "" then k else cur ++ "." ++ k

/-- A work-list frame of the iterative traversal of flatHierarchy. -/
structure Frame where
  path : String
  id : Nat

/-- The while loop of flatHierarchy. The list head plays the role of the end
of the JS array (push/pop are LIFO), visited is the identity-keyed set, and
fuel counts the remaining iterations the maxDepth guard still allows: the
source admits exactly maxDepth + 1 = 1_000_001 iterations, and on exit
maxDepth equals the remaining fuel minus one. -/
def flatLoop (store : List StoreNode) :
    Nat → List Frame → List Nat → Flat → Except String (Flat × Nat)
  | fuel, stack, visited, acc =>
    match stack with
    | [] => .ok (acc, fuel)
    | frame :: rest =>
      match fuel with
      | 0 => .ok (acc, 0)
      | fuel' + 1 =>
        match store[frame.id]? with
        | none => .error "dangling node reference"
        | some node =>
          if frame.id ∈ visited then .error "Circular reference detected in hierarchy"
          else
            let visited := frame.id :: visited
            match node with
            | .perm schemas rules children ds =>
              let acc := acc ++ [(frame.path, ⟨schemas, rules, ds⟩)]
              let stack := match children with
                | some cs =>
                  cs.foldl (fun st kv => Frame.mk (childPath frame.path kv.1) kv.2 :: st) rest
                | none => rest
              flatLoop store fuel' stack visited acc
            | .group entries =>
              let stack := entries.foldl
                (fun st kv => Frame.mk (childPath frame.path kv.1) kv.2 :: st) rest
              flatLoop store fuel' stack visited acc

/-- flatHierarchy (hierarchy.ts): run the traversal from the root object with
the 1_000_000 maxDepth guard; after the loop the source additionally throws
when maxDepth ended at or below zero, i.e. when fewer than two fuel units
remain. -/
def flatHierarchyRun (store : List StoreNode) (rootId : Nat) : Except String Flat :=
  match flatLoop store 1000001 [⟨"", rootId⟩] [] [] with
  | .error e => .error e
  | .ok (acc, fuelLeft) =>
    if fuelLeft ≤ 1 then
      .error "Max depth reached while traversing hierarchy. Possible circular reference detected."
    else .ok acc

/-- hierarchy(...) followed by validate(...): the caller-facing composition. -/
def buildAndValidate (store : List StoreNode) (rootId : Nat) (states : List StateSet)
    (key : String) (request : JVal) : Except String ValidationResult :=
  match flatHierarchyRun store rootId with
  | .error e => .error e
  | .ok flat => validate ⟨flat⟩ states key request

/-- The target schema (schemas/target/target.ts): the state must be an object
whose target property is an array, the request an object with string from and
target properties; the default state is { target: [] }. -/
def targetSchema : Schema :=
  { name := "target",
    state := some (fun obj => .ok (
      match obj with
      | .vObj fields =>
        match lookupAssoc fields "target" with
        | some (.vArr _) => true
        | _ => false
      | _ => false)),
    request := some (fun rq => .ok (
      match rq with
      | .vObj fields =>
        (match lookupAssoc fields "from" with
          | some (.vStr _) => true
          | _ => false)
        && (match lookupAssoc fields "target" with
          | some (.vStr _) => true
          | _ => false)
      | _ => false)),
    defaultState := some [("target", JVal.vArr [])] }

/-- denySelf (rules/denySelf/denySelf.ts): legacy false when
request.from === request.target, otherwise undefined. -/
def denySelfRule : Rule :=
  { name := "denySelf",
    schemas := [targetSchema],
    check := fun _st rq => .ok (
      if jsStrictEq (getProp rq "from") (getProp rq "target") then .rbool false
      else .rundef) }

/-- allowTarget (rules/allowTarget/allowTarget.ts) with the default options
(wildcards disabled): undefined unless state.target is an array, legacy true
when it includes request.target, otherwise undefined. -/
def allowTargetRule : Rule :=
  { name := "allowTarget",
    schemas := [targetSchema],
    check := fun st rq => .ok (
      match getProp st "target" with
      | some (.vArr xs) =>
        if xs.any (fun x => jsStrictEq (some x) (getProp rq "target")) then .rbool true
        else .rundef
      | _ => .rundef) }

/-- A user rule with no schemas whose check always returns the given outcome. -/
def constRule (nm : String) (v : VR) : Rule :=
  { name := nm, schemas := [], check := fun _ _ => .ok (.rres v) }

/-- The hierarchy of the ancestor-chain example of the spec: user carries denySelf,
user.delete carries allowTarget; both nodes built with the permission
constructor (their schema set and default state derive from the rules). -/
def storeC1 : List StoreNode :=
  [.group [("user", 1)],
   permissionCtor [] [denySelfRule] (some [("delete", 2)]) none,
   permissionCtor [] [allowTargetRule] none none]

/-- One state source granting user.delete for target user:alice. -/
def stateC1 : StateSet :=
  [("user.delete", .single (.vObj [("target", .vArr [.vStr "user:alice"])]))]

/-- The example request with from === target. -/
def reqC1 : JVal := .vObj [("from", .vStr "user:alice"), ("target", .vStr "user:alice")]

/-- Hierarchy a -> a.b where the ancestor a carries a rule returning GRANTED
and the child a.b a rule returning REJECTED. -/
def storeC2g : List StoreNode :=
  [.group [("a", 1)],
   permissionCtor [] [constRule "parentRule" .granted] (some [("b", 2)]) none,
   permissionCtor [] [constRule "childReject" .rejected] none none]

/-- The same hierarchy with the rule at the ancestor replaced by one returning
BLOCKED; a BLOCKED outcome dominates every merge, so if the own rules of the
ancestor were evaluated this change would necessarily surface in the result. -/
def storeC2b : List StoreNode :=
  [.group [("a", 1)],
   permissionCtor [] [constRule "parentRule" .blocked] (some [("b", 2)]) none,
   permissionCtor [] [constRule "childReject" .rejected] none none]

/-- A state source carrying an explicit (empty-object) state at path a only. -/
def stateC2 : StateSet := [("a", .single (.vObj []))]

/-- Replace the rule lists of every flat entry except the entry at the requested key. -/
def mapRulesExcept (key : String) (f : String → List Rule → List Rule) (flat : Flat) : Flat :=
  flat.map (fun kv =>
    if kv.1 = key then kv else (kv.1, { kv.2 with rules := f kv.1 kv.2.rules }))

/-- The flat map of the satisfiedBy gap example: paths a and a.b.c, a.b absent. -/
def flatC3 : Flat := [("a", ⟨[], [], none⟩), ("a.b.c", ⟨[], [], none⟩)]

/-- The same three-level chain with every intermediate path present. -/
def flatC3full : Flat :=
  [("a", ⟨[], [], none⟩), ("a.b", ⟨[], [], none⟩), ("a.b.c", ⟨[], [], none⟩)]

/-- A self-referencing node: problematic.children.self is problematic itself. -/
def selfCycleStore : List StoreNode :=
  [.group [("problematic", 1)],
   .perm [] [] (some [("self", 1)]) none]

/-- A transitive cycle a -> b -> c -> a through children links. -/
def threeCycleStore : List StoreNode :=
  [.group [("root", 1)],
   .perm [] [] (some [("b", 2)]) none,
   .perm [] [] (some [("c", 3)]) none,
   .perm [] [] (some [("a", 1)]) none]

/-- An acyclic 10-level single-chain hierarchy (every segment named n). -/
def deepStore : List StoreNode :=
  .group [("n", 1)] ::
    (List.range 10).map (fun i =>
      if i < 9 then .perm [] [] (some [("n", i + 2)]) none
      else .perm [] [] none none)

/-- The expected dot paths of deepStore, root to leaf. -/
def deepKeys : List String :=
  (List.range 10).map (fun i => String.intercalate "." (List.replicate (i + 1) "n"))

/-- An acyclic hierarchy with one root and 100 child branches c0..c99. -/
def wideStore : List StoreNode :=
  .group [("root", 1)] ::
    .perm [] [] (some ((List.range 100).map (fun i => (s!"c{i}", i + 2)))) none ::
    (List.range 100).map (fun _ => .perm [] [] none none)

/-- The keys of a successful build, none for a failed one. -/
def flatKeysOf (r : Except String Flat) : Option (List String) :=
  match r with
  | .ok f => some (f.map (·.1))
  | .error _ => none

/-- The error message of a failed build, none for a successful one. -/
def buildErrorOf (r : Except String Flat) : Option String :=
  match r with
  | .error e => some e
  | .ok _ => none

/-- Whether a validate call returned a result rather than throwing. -/
def validateReturns (r : Except String ValidationResult) : Bool :=
  match r with
  | .ok _ => true
  | .error _ => false

/-- The last explicit (non-undefined) flag of a list, starting from acc. -/
def lastSomeAux (acc : Option VR) (vs : List (Option VR)) : Option VR :=
  vs.foldl (fun a v => match v with | none => a | some x => some x) acc

/-- Modelled from the amended claim wording for the chain combination:
BLOCKED if any entry is BLOCKED, else GRANTED if any entry is GRANTED, else
the outcome of the last non-abstaining entry (none when every entry abstains). -/
def chainCombineSpec (vs : List (Option VR)) : Option VR :=
  if (some VR.blocked) ∈ vs then some VR.blocked
  else if (some VR.granted) ∈ vs then some VR.granted
  else lastSomeAux none vs

/-- Modelled from the amended claim wording for merge: the first REJECTED or
BLOCKED outcome in rule order wins, else GRANTED if any rule granted, else
NEUTRAL. -/
def mergeOutcomeSpec (vs : List VR) : VR :=
  match vs.find? (fun v => v == VR.rejected || v == VR.blocked) with
  | some v => v
  | none => if vs.contains VR.granted then VR.granted else VR.neutral

/-- Two validation errors differ in their (type, name) deduplication key. -/
def distinctTN (a b : VErr) : Prop := ¬(a.type = b.type ∧ a.name = b.name)

/-- A one-key flat map for the witness instances: doc carries one rule that
grants. -/
def flatW8 : Flat := [("doc", ⟨[], [constRule "grantAll" .granted], none⟩)]

/-- A one-key flat map whose single rule rejects. -/
def flatW10 : Flat := [("doc", ⟨[], [constRule "denyAll" .rejected], none⟩)]

/-- A tiny default-state table for the witness of the default substitution. -/
def defaultsW6 : List (String × Obj) :=
  [("user", [("target", JVal.vArr [JVal.vStr "user:bob"])]), ("user.delete", [])]

/-- The per-key value computed by createDefaultStateSet (its match body). -/
def cdssBody (flat : Flat) (q : String) : Obj :=
  match lookupAssoc flat q with
  | some e => synthDefault e
  | none => []

theorem mergeVR_valid_proj (results : List MergeRes) (mode : MergeMode) (m : Option VR)
    (es : List VErr) :
    (results.foldl
      (fun acc r => MergeRes.mk (mergeStep mode acc.valid r.valid) (addErrors acc.errors r.errors))
      ⟨m, es⟩).valid
    = (results.map (·.valid)).foldl (mergeStep mode) m := by
  induction results generalizing m es with
  | nil => rfl
  | cons r rest ih => simpa using ih (mergeStep mode m r.valid) (addErrors es r.errors)

theorem mergeValidationResults_valid (results : List MergeRes) (mode : MergeMode) :
    (mergeValidationResults results mode).valid
    = (results.map (·.valid)).foldl (mergeStep mode) none :=
  mergeVR_valid_proj results mode none []

theorem mergeStep_blocked_left (v : Option VR) :
    mergeStep .mOr (some .blocked) v = some .blocked := by
  cases v with
  | none => rfl
  | some rv => simp [mergeStep]

theorem foldl_mOr_blocked (vs : List (Option VR)) :
    vs.foldl (mergeStep .mOr) (some .blocked) = some .blocked := by
  induction vs with
  | nil => rfl
  | cons v rest ih => rw [List.foldl_cons, mergeStep_blocked_left]; exact ih

theorem foldl_mOr_granted (vs : List (Option VR)) :
    vs.foldl (mergeStep .mOr) (some .granted)
    = if (some VR.blocked) ∈ vs then some VR.blocked else some VR.granted := by
  induction vs with
  | nil => simp
  | cons v rest ih =>
    rw [List.foldl_cons]
    cases v with
    | none => simpa using ih
    | some rv => cases rv <;> simp [mergeStep, ih, foldl_mOr_blocked]

theorem foldl_mOr_rn (vs : List (Option VR)) (m : VR) (hm : m = VR.rejected ∨ m = VR.neutral) :
    vs.foldl (mergeStep .mOr) (some m)
    = if (some VR.blocked) ∈ vs then some VR.blocked
      else if (some VR.granted) ∈ vs then some VR.granted
      else lastSomeAux (some m) vs := by
  induction vs generalizing m with
  | nil => simp [lastSomeAux]
  | cons v rest ih =>
    rw [List.foldl_cons]
    cases v with
    | none =>
      have : mergeStep .mOr (some m) none = some m := rfl
      rw [this, ih m hm]
      simp [lastSomeAux]
    | some rv =>
      rcases hm with hm | hm <;> subst hm <;> cases rv <;>
        simp [mergeStep, ih _ (Or.inl rfl), ih _ (Or.inr rfl), foldl_mOr_blocked,
          foldl_mOr_granted, lastSomeAux]

theorem foldl_mOr_none (vs : List (Option VR)) :
    vs.foldl (mergeStep .mOr) none = chainCombineSpec vs := by
  induction vs with
  | nil => simp [chainCombineSpec, lastSomeAux]
  | cons v rest ih =>
    rw [List.foldl_cons]
    cases v with
    | none =>
      have : mergeStep .mOr none none = none := rfl
      rw [this, ih]
      simp [chainCombineSpec, lastSomeAux]
    | some rv =>
      have hstep : mergeStep .mOr none (some rv) = some rv := rfl
      rw [hstep]
      cases rv <;>
        simp [chainCombineSpec, foldl_mOr_blocked, foldl_mOr_granted,
          foldl_mOr_rn _ _ (Or.inl rfl), foldl_mOr_rn _ _ (Or.inr rfl), lastSomeAux]

/-- Claim C1, counterexample: in the hierarchy user -> user.delete where user
carries denySelf and user.delete carries allowTarget, the request with
from === target = user:alice against a source granting user.delete for that
target validates with valid = true — the claim asserts this request is not
valid, so the claimed AND combination of the ancestor chain does not hold of
validate. -/
theorem claim1_counterexample :
    buildAndValidate storeC1 0 [stateC1] "user.delete" reqC1
    = .ok { valid := true, reasons := [], resultType := some .granted } := by
  rfl

/-- Claim C1, amended: validate combines the per-ancestor results of the
resolved chain (and likewise the per-entry and per-source results) with
mergeValidationResults in its default "or" mode, whose flag fold satisfies:
BLOCKED if any result is BLOCKED, else GRANTED if any result is GRANTED,
else the outcome of the last non-abstaining result — so a REJECTED ancestor
does not veto a GRANTED one, and the denySelf example request is valid. -/
theorem claim1_amended (results : List MergeRes) :
    (mergeValidationResults results .mOr).valid = chainCombineSpec (results.map (·.valid)) := by
  rw [mergeValidationResults_valid, foldl_mOr_none]

theorem flatHasKey_mapRulesExcept (key : String) (f : String → List Rule → List Rule)
    (flat : Flat) (k : String) :
    flatHasKey (mapRulesExcept key f flat) k = flatHasKey flat k := by
  induction flat with
  | nil => rfl
  | cons kv rest ih =>
    have ih2 : (rest.any
        ((fun kv => kv.1 == k) ∘ fun kv =>
          if kv.1 = key then kv else (kv.1, { kv.2 with rules := f kv.1 kv.2.rules })))
        = rest.any (fun kv => kv.1 == k) := by
      simpa [mapRulesExcept, flatHasKey] using ih
    by_cases h : kv.1 = key <;> simp [mapRulesExcept, flatHasKey, h, ih2]

theorem satLoop_congr (f1 f2 : Flat) (h : ∀ k, flatHasKey f1 k = flatHasKey f2 k)
    (fuel : Nat) (tk : String) (sep : Int) (m : List String) :
    satLoop f1 fuel tk sep m = satLoop f2 fuel tk sep m := by
  induction fuel generalizing tk sep m with
  | zero => rfl
  | succ fuel ih =>
    simp only [satLoop, h tk]
    split <;> [skip; rfl]
    split <;> [exact ih _ _ _; rfl]

theorem satisfiedBy_congr (f1 f2 : Flat) (h : ∀ k, flatHasKey f1 k = flatHasKey f2 k)
    (key : String) : satisfiedBy f1 key = satisfiedBy f2 key := by
  simp only [satisfiedBy, h key]
  split
  · rfl
  · exact satLoop_congr f1 f2 h _ _ _ _

theorem lookupAssoc_cons {α : Type} (k2 : String) (v : α) (rest : List (String × α))
    (q : String) :
    lookupAssoc ((k2, v) :: rest) q = if k2 = q then some v else lookupAssoc rest q := rfl

theorem mapRulesExcept_cons (key : String) (f : String → List Rule → List Rule)
    (k2 : String) (e : FlatEntry) (rest : Flat) :
    mapRulesExcept key f ((k2, e) :: rest)
    = (if k2 = key then (k2, e) else (k2, { e with rules := f k2 e.rules }))
      :: mapRulesExcept key f rest := by
  by_cases hk : k2 = key <;> simp [mapRulesExcept, hk]

theorem lookup_mapRulesExcept (key : String) (f : String → List Rule → List Rule)
    (flat : Flat) (q : String) :
    lookupAssoc (mapRulesExcept key f flat) q
    = (lookupAssoc flat q).map
        (fun e => if q = key then e else { e with rules := f q e.rules }) := by
  induction flat with
  | nil => rfl
  | cons kv rest ih =>
    obtain ⟨k2, e⟩ := kv
    rw [mapRulesExcept_cons]
    by_cases hk : k2 = key
    · rw [if_pos hk]
      by_cases hq : k2 = q
      · subst hq
        rw [lookupAssoc_cons, lookupAssoc_cons, if_pos rfl, if_pos rfl]
        simp [hk]
      · rw [lookupAssoc_cons, lookupAssoc_cons, if_neg hq, if_neg hq, ih]
    · rw [if_neg hk]
      by_cases hq : k2 = q
      · subst hq
        rw [lookupAssoc_cons, lookupAssoc_cons, if_pos rfl, if_pos rfl]
        have hqk : ¬(k2 = key) := hk
        simp [hqk]
      · rw [lookupAssoc_cons, lookupAssoc_cons, if_neg hq, if_neg hq, ih]

theorem synthDefault_rules (e : FlatEntry) (r : List Rule) :
    synthDefault { e with rules := r } = synthDefault e := rfl

theorem mapRulesExcept_fst (key : String) (f : String → List Rule → List Rule) (flat : Flat) :
    (mapRulesExcept key f flat).map (·.1) = flat.map (·.1) := by
  induction flat with
  | nil => rfl
  | cons kv rest ih =>
    obtain ⟨k2, e⟩ := kv
    rw [mapRulesExcept_cons]
    by_cases hk : k2 = key <;> simp [hk, ih]

theorem map_cdssBody (inner1 inner2 : Flat) (hb : ∀ q, cdssBody inner1 q = cdssBody inner2 q) :
    ∀ (l1 l2 : Flat), l1.map (·.1) = l2.map (·.1) →
      l1.map (fun kv => (kv.1, cdssBody inner1 kv.1))
        = l2.map (fun kv => (kv.1, cdssBody inner2 kv.1)) := by
  intro l1
  induction l1 with
  | nil =>
    intro l2 hfst
    cases l2 with
    | nil => rfl
    | cons kv2 rest2 => simp at hfst
  | cons kv rest ih =>
    intro l2 hfst
    cases l2 with
    | nil => simp at hfst
    | cons kv2 rest2 =>
      simp only [List.map_cons, List.cons.injEq] at hfst ⊢
      exact ⟨by rw [hfst.1, hb], ih rest2 hfst.2⟩

theorem cdss_mapRulesExcept (key : String) (f : String → List Rule → List Rule) (flat : Flat) :
    createDefaultStateSet (mapRulesExcept key f flat) = createDefaultStateSet flat := by
  have hb : ∀ q, cdssBody (mapRulesExcept key f flat) q = cdssBody flat q := by
    intro q
    unfold cdssBody
    rw [lookup_mapRulesExcept]
    cases lookupAssoc flat q with
    | none => rfl
    | some e => by_cases hq : q = key <;> simp [hq, synthDefault_rules]
  show (mapRulesExcept key f flat).map
      (fun kv => (kv.1, cdssBody (mapRulesExcept key f flat) kv.1))
    = flat.map (fun kv => (kv.1, cdssBody flat kv.1))
  exact map_cdssBody _ _ hb _ _ (mapRulesExcept_fst key f flat)

theorem claim2_helper_lookup (key : String) (f : String → List Rule → List Rule) (flat : Flat) :
    lookupAssoc (mapRulesExcept key f flat) key = lookupAssoc flat key := by
  rw [lookup_mapRulesExcept]
  cases lookupAssoc flat key <;> simp

/-- Claim C2, counterexample: two hierarchies a -> a.b that differ only in the
rule at the ancestor a (one returns GRANTED, the other BLOCKED) while a.b carries a
REJECTED-returning rule named childReject; validating key a.b yields exactly
the same result for both — valid = false with the childReject reason and
resultType REJECTED, never BLOCKED. Since a BLOCKED rule outcome dominates
every merge and would necessarily surface, the own rules of the ancestor were not
evaluated: at each chain path validate evaluates the rules of the requested key,
against the claim. -/
theorem claim2_counterexample :
    buildAndValidate storeC2g 0 [stateC2] "a.b" (.vObj [])
      = .ok { valid := false,
              reasons := [⟨"rule", "childReject", "Rule not satisfied: childReject", some 0⟩],
              resultType := some .rejected }
    ∧ buildAndValidate storeC2b 0 [stateC2] "a.b" (.vObj [])
      = .ok { valid := false,
              reasons := [⟨"rule", "childReject", "Rule not satisfied: childReject", some 0⟩],
              resultType := some .rejected } :=
  ⟨rfl, rfl⟩

/-- Claim C2, amended: at every ancestor path in the chain, validate evaluates
the schema checks and rule checks of the entry recorded at the requested key
(permission = hierarchy.flat[key]), with only the state resolved per ancestor
path; consequently replacing the rule list of every path other than the
requested key leaves the result of validate unchanged (ancestor schemas still
matter, but only through default-state synthesis, which this transformation
preserves). -/
theorem claim2_amended (flat : Flat) (f : String → List Rule → List Rule)
    (states : List StateSet) (key : String) (request : JVal) :
    validate ⟨mapRulesExcept key f flat⟩ states key request
    = validate ⟨flat⟩ states key request := by
  have hsat : satisfiedBy (mapRulesExcept key f flat) key = satisfiedBy flat key :=
    satisfiedBy_congr _ _ (flatHasKey_mapRulesExcept key f flat) key
  have hcd : createDefaultStateSet (mapRulesExcept key f flat) = createDefaultStateSet flat :=
    cdss_mapRulesExcept key f flat
  have hl : lookupAssoc (mapRulesExcept key f flat) key = lookupAssoc flat key :=
    claim2_helper_lookup key f flat
  simp only [validate, hsat, hcd, hl]

theorem satLoop_prepends (flat : Flat) (fuel : Nat) (tk : String) (sep : Int)
    (m : List String) : ∃ pre, satLoop flat fuel tk sep m = pre ++ m := by
  induction fuel generalizing tk sep m with
  | zero => exact ⟨[], rfl⟩
  | succ fuel ih =>
    simp only [satLoop]
    split
    · split
      · obtain ⟨pre, hpre⟩ := ih (jsSubstringTo tk (jsLastIndexOfDot tk)) (jsLastIndexOfDot tk)
          (tk :: m)
        exact ⟨pre ++ [tk], by rw [hpre]; simp⟩
      · exact ⟨[], rfl⟩
    · exact ⟨[], rfl⟩

/-- Claim C3, counterexample: for the flat hierarchy with exactly the paths a
and a.b.c, satisfiedBy on key a.b.c returns ["a.b.c"], not the claimed ["a"]:
the walk starts at the requested key, keeps it, and the break at the missing
ancestor a.b discards a, the more distant side. -/
theorem claim3_counterexample :
    satisfiedBy flatC3 "a.b.c" = ["a.b.c"] ∧ satisfiedBy flatC3 "a.b.c" ≠ ["a"] :=
  ⟨rfl, by decide⟩

/-- Claim C3, amended: on the flat hierarchy with exactly the paths a and
a.b.c, satisfiedBy "a.b.c" returns exactly ["a.b.c"]; resolution still stops
at the first ancestor missing from the flat map, but it discards that
ancestor and everything above it while keeping the contiguous chain that ends
at the requested key; the returned list is ordered root-to-leaf, as the full
chain {a, a.b, a.b.c} shows, and whenever the result is nonempty its last
element is the requested key itself. -/
theorem claim3_amended :
    satisfiedBy flatC3 "a.b.c" = ["a.b.c"]
    ∧ satisfiedBy flatC3full "a.b.c" = ["a", "a.b", "a.b.c"]
    ∧ ∀ (flat : Flat) (key : String),
        satisfiedBy flat key = [] ∨ (satisfiedBy flat key).getLast? = some key := by
  refine ⟨rfl, rfl, ?_⟩
  intro flat key
  have hdef : satisfiedBy flat key
      = if jsLastIndexOfDot key < 0 then (if flatHasKey flat key then [key] else [])
        else satLoop flat (key.data.length + 1) key (jsLastIndexOfDot key) [] := rfl
  rw [hdef]
  by_cases h1 : jsLastIndexOfDot key < 0
  · rw [if_pos h1]
    by_cases h2 : flatHasKey flat key = true
    · rw [if_pos h2]
      exact Or.inr rfl
    · rw [if_neg h2]
      exact Or.inl rfl
  · rw [if_neg h1]
    have hstep : satLoop flat (key.data.length + 1) key (jsLastIndexOfDot key) []
        = if jsLastIndexOfDot key ≥ 0 then
            (if flatHasKey flat key then
              satLoop flat key.data.length (jsSubstringTo key (jsLastIndexOfDot key))
                (jsLastIndexOfDot key) [key]
            else [])
          else [] := rfl
    rw [hstep, if_pos (le_of_not_lt h1)]
    by_cases h2 : flatHasKey flat key = true
    · rw [if_pos h2]
      obtain ⟨pre, hpre⟩ := satLoop_prepends flat key.data.length
        (jsSubstringTo key (jsLastIndexOfDot key)) (jsLastIndexOfDot key) [key]
      rw [hpre]
      exact Or.inr (by rw [List.getLast?_append_cons]; rfl)
    · rw [if_neg h2]
      exact Or.inl rfl

theorem mergeCheckLoop_const (nm : String) (st rq : JVal) (vs : List VR) (acc : VR) :
    mergeCheckLoop st rq (vs.map (constRule nm)) acc
    = .ok (.rres (match vs.find? (fun v => v == VR.rejected || v == VR.blocked) with
        | some v => v
        | none => if vs.contains VR.granted then VR.granted else acc)) := by
  induction vs generalizing acc with
  | nil => rfl
  | cons v rest ih =>
    cases v with
    | rejected => rfl
    | blocked => rfl
    | granted =>
      refine Eq.trans (ih VR.granted) ?_
      show Except.ok (RuleRet.rres
          (match rest.find? (fun v => v == VR.rejected || v == VR.blocked) with
            | some w => w
            | none => if rest.contains VR.granted then VR.granted else VR.granted))
        = Except.ok (RuleRet.rres
          (match rest.find? (fun v => v == VR.rejected || v == VR.blocked) with
            | some w => w
            | none => VR.granted))
      cases h : rest.find? (fun v => v == VR.rejected || v == VR.blocked) <;> simp [h]
    | neutral =>
      refine Eq.trans (ih acc) ?_
      rfl

/-- Claim C4, counterexample: for the rule list [REJECTED-rule, BLOCKED-rule]
the merged check returns REJECTED even though one rule is BLOCKED, so the
claimed order-independent BLOCKED > REJECTED priority does not hold: merge
short-circuits on the first REJECTED or BLOCKED in rule order. -/
theorem claim4_counterexample :
    (mergeRules [constRule "r1" .rejected, constRule "r2" .blocked]).check
        (JVal.vObj []) (JVal.vObj []) = .ok (.rres .rejected)
    ∧ (Except.ok (RuleRet.rres VR.rejected) : Except String RuleRet)
        ≠ .ok (.rres .blocked) := by
  exact ⟨rfl, by simp⟩

/-- Claim C4, amended: merge(rules).check returns the outcome of the first
rule (in list order) whose outcome is REJECTED or BLOCKED — whichever of the
two it is — and only when no rule rejects or blocks is the result GRANTED if
at least one rule is GRANTED and NEUTRAL otherwise; the BLOCKED > REJECTED
priority therefore holds only between the candidates at the same position,
not across the list, and the result is order-dependent. -/
theorem claim4_amended (vs : List VR) (st rq : JVal) :
    (mergeRules (vs.map (constRule "c"))).check st rq = .ok (.rres (mergeOutcomeSpec vs)) := by
  show mergeCheckLoop st rq (vs.map (constRule "c")) .neutral = _
  rw [mergeCheckLoop_const]
  rfl

/-- Claim C5, counterexample: or([r]) for the single rule r constantly
returning REJECTED evaluates to NEUTRAL while r itself evaluates to REJECTED,
so the singleton or is not an identity. -/
theorem claim5_counterexample :
    (orRules [constRule "r" .rejected]).check (JVal.vObj []) (JVal.vObj [])
      = .ok (.rres .neutral)
    ∧ (constRule "r" .rejected).check (JVal.vObj []) (JVal.vObj [])
      = .ok (.rres .rejected)
    ∧ (Except.ok (RuleRet.rres VR.neutral) : Except String RuleRet)
      ≠ .ok (.rres .rejected) := by
  exact ⟨rfl, rfl, by simp⟩

/-- Claim C5, amended: for a single rule returning any of the four outcomes,
and([r]) is an identity, but or([r]) equals the rule only for GRANTED and
NEUTRAL outcomes: or never produces REJECTED or BLOCKED and collapses both
to NEUTRAL. -/
theorem claim5_amended (v : VR) (st rq : JVal) :
    (andRules [constRule "r" v]).check st rq = .ok (.rres v)
    ∧ (orRules [constRule "r" v]).check st rq
      = .ok (.rres (if v = .granted then .granted else .neutral)) := by
  cases v <;> exact ⟨rfl, rfl⟩

theorem lookup_map_cdssBody (inner : Flat) (l : Flat) (p : String) :
    lookupAssoc (l.map (fun kv => (kv.1, cdssBody inner kv.1))) p
    = if flatHasKey l p then some (cdssBody inner p) else none := by
  induction l with
  | nil => rfl
  | cons kv rest ih =>
    obtain ⟨k2, e⟩ := kv
    rw [List.map_cons, lookupAssoc_cons]
    by_cases hq : k2 = p
    · subst hq
      rw [if_pos rfl, if_pos (by simp [flatHasKey])]
    · rw [if_neg hq, ih]
      have : flatHasKey ((k2, e) :: rest) p = flatHasKey rest p := by
        simp [flatHasKey, hq]
      rw [this]

theorem flatHasKey_eq_isSome (l : Flat) (p : String) :
    flatHasKey l p = (lookupAssoc l p).isSome := by
  induction l with
  | nil => rfl
  | cons kv rest ih =>
    obtain ⟨k2, e⟩ := kv
    rw [lookupAssoc_cons]
    by_cases hq : k2 = p
    · simp [flatHasKey, hq]
    · simp only [flatHasKey, List.any_cons] at *
      simp [hq, ih]

/-- Claim C6: when a state source has no entry at chain path p, the single
effective state entry validate evaluates at p is the synthesized default of
the requested key merged under the synthesized default of p (p overrides key,
field by field); and the synthesized default recorded for any path by
createDefaultStateSet is exactly synthDefault of its flat entry — the
schema defaultState objects merged in order, then the node-level
defaultState applied last. -/
theorem claim6 :
    (∀ (defaults : List (String × Obj)) (st : StateSet) (key p : String),
      lookupAssoc st p = none →
      stateEntriesFor defaults st key p
        = [JVal.vObj (mergeObj ((lookupAssoc defaults key).getD [])
            ((lookupAssoc defaults p).getD []))])
    ∧ ∀ (flat : Flat) (p : String),
      lookupAssoc (createDefaultStateSet flat) p = (lookupAssoc flat p).map synthDefault := by
  constructor
  · intro defaults st key p hnone
    unfold stateEntriesFor
    rw [hnone]
  · intro flat p
    have hmain : lookupAssoc (createDefaultStateSet flat) p
        = if flatHasKey flat p then some (cdssBody flat p) else none :=
      lookup_map_cdssBody flat flat p
    rw [hmain, flatHasKey_eq_isSome]
    cases hl : lookupAssoc flat p with
    | none => rfl
    | some e =>
      have : cdssBody flat p = synthDefault e := by
        unfold cdssBody
        rw [hl]
      simp [this]

theorem claim6_witness :
    stateEntriesFor defaultsW6 [] "user.delete" "user"
      = [JVal.vObj (mergeObj ((lookupAssoc defaultsW6 "user.delete").getD [])
          ((lookupAssoc defaultsW6 "user").getD []))]
    ∧ lookupAssoc (createDefaultStateSet flatC3) "a" = (lookupAssoc flatC3 "a").map synthDefault :=
  ⟨claim6.1 defaultsW6 [] "user.delete" "user" rfl, claim6.2 flatC3 "a"⟩

/-- Claim C7: validate throws exactly when the key is absent from the
flattened hierarchy (with the thrown message naming the key); whenever the
key is present it returns a ValidationResult — schema checks and rule checks
that throw are consumed inside allow and become recorded outcomes, never
escaping exceptions (schema defaultState factories are pure in this model,
matching the proviso of the claim). -/
theorem claim7 (h : PermHierarchy) (states : List StateSet) (key : String) (rq : JVal) :
    ((lookupAssoc h.flat key).isNone = true →
      validate h states key rq = .error s!"Permission \x22{key}\x22 not found in hierarchy")
    ∧ ((lookupAssoc h.flat key).isSome = true →
      ∃ res, validate h states key rq = .ok res) := by
  cases hl : lookupAssoc h.flat key with
  | none =>
    constructor
    · intro _
      unfold validate
      rw [hl]
    · intro hs
      simp at hs
  | some perm =>
    constructor
    · intro hn
      simp at hn
    · intro _
      simp only [validate, hl]
      exact ⟨_, rfl⟩

theorem claim7_witness :
    validate ⟨flatW8⟩ [] "missing" (.vObj [])
      = .error "Permission \x22missing\x22 not found in hierarchy"
    ∧ ∃ res, validate ⟨flatW8⟩ [] "doc" (.vObj []) = .ok res :=
  ⟨(claim7 ⟨flatW8⟩ [] "missing" (.vObj [])).1 rfl,
   (claim7 ⟨flatW8⟩ [] "doc" (.vObj [])).2 rfl⟩

theorem valresult_pack_props (fv : Option VR) (errs : List VErr) :
    (decide (fv = some VR.granted) = true ↔ fv = some VR.granted)
    ∧ ((if fv = some VR.rejected ∨ fv = some VR.blocked then errs else []) ≠ [] →
        fv = some VR.rejected ∨ fv = some VR.blocked)
    ∧ (fv = some VR.neutral →
        decide (fv = some VR.granted) = false
        ∧ (if fv = some VR.rejected ∨ fv = some VR.blocked then errs else []) = []) := by
  rcases fv with _ | v
  · simp
  · cases v <;> simp

/-- Claim C8: in every result validate returns, valid is true exactly when the
combined outcome (resultType) is GRANTED, reasons can be nonempty only when
the combined outcome is REJECTED or BLOCKED, and a NEUTRAL combined outcome
yields valid = false with an empty reasons list. -/
theorem claim8 (h : PermHierarchy) (states : List StateSet) (key : String) (rq : JVal)
    (res : ValidationResult) (hok : validate h states key rq = .ok res) :
    (res.valid = true ↔ res.resultType = some VR.granted)
    ∧ (res.reasons ≠ [] →
        res.resultType = some VR.rejected ∨ res.resultType = some VR.blocked)
    ∧ (res.resultType = some VR.neutral → res.valid = false ∧ res.reasons = []) := by
  unfold validate at hok
  cases hl : lookupAssoc h.flat key with
  | none =>
    rw [hl] at hok
    exact absurd hok (by simp)
  | some perm =>
    rw [hl] at hok
    injection hok with h2
    subst h2
    exact valresult_pack_props _ _

theorem claim8_witness :
    let res : ValidationResult := { valid := true, reasons := [], resultType := some VR.granted }
    (res.valid = true ↔ res.resultType = some VR.granted)
    ∧ (res.reasons ≠ [] →
        res.resultType = some VR.rejected ∨ res.resultType = some VR.blocked)
    ∧ (res.resultType = some VR.neutral → res.valid = false ∧ res.reasons = []) :=
  claim8 ⟨flatW8⟩ [[("doc", .single (.vObj []))]] "doc" (.vObj [])
    { valid := true, reasons := [], resultType := some VR.granted } rfl

theorem addErrors_pairwise (news : List VErr) :
    ∀ acc : List VErr, acc.Pairwise distinctTN → (addErrors acc news).Pairwise distinctTN := by
  induction news with
  | nil => exact fun acc h => h
  | cons e rest ih =>
    intro acc h
    have hstep : addErrors acc (e :: rest)
        = addErrors
            (if acc.any (fun x => x.type == e.type && x.name == e.name) then acc else acc ++ [e])
            rest := rfl
    rw [hstep]
    by_cases hany : acc.any (fun x => x.type == e.type && x.name == e.name) = true
    · rw [if_pos hany]
      exact ih acc h
    · rw [if_neg hany]
      refine ih _ (List.pairwise_append.mpr ⟨h, List.pairwise_singleton _ _, ?_⟩)
      intro x hx y hy
      simp only [List.mem_singleton] at hy
      subst hy
      simp only [List.any_eq_true, not_exists, not_and, Bool.and_eq_true, beq_iff_eq] at hany
      intro hcontra
      exact hany x hx hcontra.1 hcontra.2

theorem mergeVR_errors_pairwise (results : List MergeRes) (mode : MergeMode) :
    ∀ (m : Option VR) (es : List VErr), es.Pairwise distinctTN →
      ((results.foldl
        (fun acc r =>
          MergeRes.mk (mergeStep mode acc.valid r.valid) (addErrors acc.errors r.errors))
        ⟨m, es⟩).errors).Pairwise distinctTN := by
  induction results with
  | nil => exact fun m es h => h
  | cons r rest ih =>
    intro m es h
    exact ih _ _ (addErrors_pairwise r.errors es h)

/-- Claim C10: the reasons list of every result validate returns never holds
two errors with the same (type, name) pair — the final merge collects errors
with a first-wins deduplication keyed on (type, name), so later errors from
other chain paths, state entries or state sources with the same key are
suppressed. -/
theorem claim10 (h : PermHierarchy) (states : List StateSet) (key : String) (rq : JVal)
    (res : ValidationResult) (hok : validate h states key rq = .ok res) :
    res.reasons.Pairwise distinctTN := by
  unfold validate at hok
  cases hl : lookupAssoc h.flat key with
  | none =>
    rw [hl] at hok
    exact absurd hok (by simp)
  | some perm =>
    rw [hl] at hok
    injection hok with h2
    subst h2
    show (if _ then (mergeValidationResults _ .mOr).errors else []).Pairwise distinctTN
    split
    · exact mergeVR_errors_pairwise _ .mOr none [] List.Pairwise.nil
    · exact List.Pairwise.nil

theorem claim10_witness :
    (ValidationResult.mk false
      [⟨"rule", "denyAll", "Rule not satisfied: denyAll", some 0⟩]
      (some VR.rejected)).reasons.Pairwise distinctTN :=
  claim10 ⟨flatW10⟩ [[("doc", .single (.vObj []))]] "doc" (.vObj [])
    { valid := false,
      reasons := [⟨"rule", "denyAll", "Rule not satisfied: denyAll", some 0⟩],
      resultType := some VR.rejected } rfl

/-- Claim C9: building from a cyclic object graph — a direct self-reference
or a transitive a -> b -> c -> a cycle through children links — throws the
circular-reference error, while building the acyclic 10-level-deep chain and
the 101-node 100-branch-wide tree succeeds, producing a flat entry for every
permission node (all 10 chain paths; the root plus all 100 branch paths). -/
theorem claim9 :
    buildErrorOf (flatHierarchyRun selfCycleStore 0)
      = some "Circular reference detected in hierarchy"
    ∧ buildErrorOf (flatHierarchyRun threeCycleStore 0)
      = some "Circular reference detected in hierarchy"
    ∧ flatKeysOf (flatHierarchyRun deepStore 0) = some deepKeys
    ∧ ((flatKeysOf (flatHierarchyRun wideStore 0)).getD []).length = 101
    ∧ ((flatKeysOf (flatHierarchyRun wideStore 0)).getD []).contains "root" = true
    ∧ (List.range 100).all
        (fun i => ((flatKeysOf (flatHierarchyRun wideStore 0)).getD []).contains s!"root.c{i}")
      = true := by
  refine ⟨by decide, by decide, by decide, by decide, by decide, by decide⟩

end QP
